import Mathlib

/-!
Verification of the orbit-agent task execution engine.

This development embeds the orchestration core of the repository
(`orbit_agent/tasks/models.py`, `orbit_agent/tasks/engine.py`,
`orbit_agent/permissions/manager.py` and the run loop / self-correction
logic of `orbit_agent/core/agent.py`) as executable Lean definitions, and
proves or refutes the specification claims about them.

Conventions of the embedding:
* Python dicts of JSON-like data become association lists over `JVal`.
* `datetime.utcnow()` becomes an explicit `now : Nat` parameter.
* Writing a task to the store (`save_task`) stamps `updated_at`; the
  serialized form written to disk is modelled by `save_task_json`.
* In-place mutation of a step found via `Task.get_step` becomes `updFirst`,
  which rewrites the first step whose id matches (exactly what mutating the
  object returned by `get_step` does).
-/

namespace Orbit

/-- JSON-like values, the payload type of `skill_config`, step outputs and
the persisted task format (pydantic `model_dump_json` / `json.load`). -/
inductive JVal where
  | null : JVal
  | bool (b : Bool) : JVal
  | str (s : String) : JVal
  | num (n : Nat) : JVal
  | arr (xs : List JVal) : JVal
  | obj (fields : List (String × JVal)) : JVal
deriving Repr

/-- Python truthiness of a JSON-like value (`if output:` etc.). -/
def JVal.truthy : JVal → Bool
  | .null => false
  | .bool b => b
  | .str s => !s.isEmpty
  | .num n => n != 0
  | .arr xs => !xs.isEmpty
  | .obj fields => !fields.isEmpty

/-- Python `dict.get(k)` on a config map: `null` models an absent key /
Python `None`. -/
def cfg_get (cfg : List (String × JVal)) (k : String) : JVal :=
  match cfg.find? (fun kv => kv.1 == k) with
  | some kv => kv.2
  | none => .null

/-- Python `dict[k] = v`: replace the binding if the key exists, else append. -/
def cfg_set (cfg : List (String × JVal)) (k : String) (v : JVal) : List (String × JVal) :=
  match cfg with
  | [] => [(k, v)]
  | kv :: rest => if kv.1 == k then (k, v) :: rest else kv :: cfg_set rest k v

/-- `TaskState` from `orbit_agent/tasks/models.py`. -/
inductive TaskState where
  | pending | running | blocked | completed | failed | cancelled
deriving DecidableEq, Repr

/-- `StepState` from `orbit_agent/tasks/models.py`. -/
inductive StepState where
  | pending | running | blocked | completed | failed | skipped
deriving DecidableEq, Repr

/-- `Artifact` from `orbit_agent/tasks/models.py` (UUID as string,
datetime as Nat). -/
structure Artifact where
  id : String
  name : String
  content : Option String
  path : Option String
  created_at : Nat
deriving DecidableEq, Repr

/-- `TaskStep` from `orbit_agent/tasks/models.py`. -/
structure TaskStep where
  id : String
  skill_name : String
  skill_config : List (String × JVal)
  state : StepState
  output : JVal
  error : Option String
  retry_count : Nat
  max_retries : Nat
  dependencies : List String
  started_at : Option Nat
  completed_at : Option Nat
deriving Repr

/-- `Task` from `orbit_agent/tasks/models.py`. -/
structure Task where
  id : String
  goal : String
  steps : List TaskStep
  state : TaskState
  artifacts : List Artifact
  context : List (String × JVal)
  created_at : Nat
  updated_at : Nat
deriving Repr

/-- `Task.get_step`: first step with the given id, if any. -/
def Task.get_step (t : Task) (step_id : String) : Option TaskStep :=
  t.steps.find? (fun s => s.id == step_id)

/-- Rewrite the first step whose id matches `sid` with `f`; the Lean image of
looking a step up with `get_step` and mutating the returned object in place. -/
def updFirst (sid : String) (f : TaskStep → TaskStep) : List TaskStep → List TaskStep
  | [] => []
  | s :: rest => if s.id == sid then f s :: rest else s :: updFirst sid f rest

/-- `TaskEngine.save_task`: stamps `updated_at` before writing the task. The
durable write itself is modelled by `save_task_json` below. -/
def save_task (t : Task) (now : Nat) : Task :=
  { t with updated_at := now }

/-- Field updates applied by `TaskEngine.update_step_state` to the step it
found: state, conditionally output and error, retry counting and the
timestamps. -/
def applyUpd (st : StepState) (output : JVal) (error : Option String) (now : Nat)
    (s : TaskStep) : TaskStep :=
  { s with
    state := st
    output := if output.truthy then output else s.output
    error := match error with
      | some e => if e.isEmpty then s.error else some e
      | none => s.error
    retry_count := if st = .failed then s.retry_count + 1 else s.retry_count
    started_at := if st = .running ∧ s.started_at = none then some now else s.started_at
    completed_at := if st = .completed ∨ st = .failed then some now else s.completed_at }

/-- `TaskEngine.update_step_state`. -/
def update_step_state (t : Task) (step_id : String) (st : StepState)
    (output : JVal) (error : Option String) (now : Nat) : Task :=
  match t.get_step step_id with
  | none => t
  | some _ => save_task { t with steps := updFirst step_id (applyUpd st output error now) t.steps } now

/-- Loop body of `TaskEngine.get_runnable_steps`: walk the steps in order,
appending each eligible one to the accumulator. -/
def runnable_go (completed_ids : List String) : List TaskStep → List TaskStep → List TaskStep
  | runnable, [] => runnable
  | runnable, step :: rest =>
    if step.state = .pending ∨ step.state = .failed then
      if step.state = .failed ∧ step.max_retries ≤ step.retry_count then
        runnable_go completed_ids runnable rest
      else if step.dependencies.all (fun d => completed_ids.contains d) then
        runnable_go completed_ids (runnable ++ [step]) rest
      else
        runnable_go completed_ids runnable rest
    else
      runnable_go completed_ids runnable rest

/-- `TaskEngine.get_runnable_steps`. -/
def get_runnable_steps (t : Task) : List TaskStep :=
  let completed_ids := (t.steps.filter (fun s => decide (s.state = .completed))).map (fun s => s.id)
  runnable_go completed_ids [] t.steps

/-- `TaskEngine.check_task_completion`: returns the boolean together with
the (possibly re-stated and re-saved) task. -/
def check_task_completion (t : Task) (now : Nat) : Bool × Task :=
  if t.steps.isEmpty then (false, t)
  else if t.steps.all (fun s => decide (s.state = .completed)) then
    (true, save_task { t with state := .completed } now)
  else if t.steps.any (fun s => decide (s.state = .failed ∧ s.max_retries ≤ s.retry_count)) then
    (true, save_task { t with state := .failed } now)
  else
    (false, t)

/-- `TaskEngine.add_step`: append and save. -/
def add_step (t : Task) (step : TaskStep) (now : Nat) : Task :=
  save_task { t with steps := t.steps ++ [step] } now

/-- `PermissionLevel` from `orbit_agent/permissions/manager.py`. -/
inductive PermissionLevel where
  | allow | deny | ask
deriving DecidableEq, Repr

/-- The default policy dict built in `PermissionManager.__init__`. -/
def defaultPolicy : List (String × PermissionLevel) :=
  [("file_read", .allow), ("file_write", .ask), ("shell_exec", .allow),
   ("net_access", .allow), ("code_scaffold", .allow), ("desktop_control", .allow),
   ("desktop_view", .allow), ("vision_analyze", .allow)]

/-- Python `policy[k] = v` on the association-list model of the dict. -/
def policy_set (policy : List (String × PermissionLevel)) (k : String) (v : PermissionLevel) :
    List (String × PermissionLevel) :=
  match policy with
  | [] => [(k, v)]
  | kv :: rest => if kv.1 == k then (k, v) :: rest else kv :: policy_set rest k v

/-- The config-override loop of `PermissionManager.__init__`. -/
def policy_overrides (policy : List (String × PermissionLevel))
    (overrides : List (String × PermissionLevel)) : List (String × PermissionLevel) :=
  overrides.foldl (fun p kv => policy_set p kv.1 kv.2) policy

/-- The policy the `Agent` constructor builds:
`PermissionManager({"shell_exec": "ask", "file_write": "ask"})`. -/
def agentPolicy : List (String × PermissionLevel) :=
  policy_overrides defaultPolicy [("shell_exec", .ask), ("file_write", .ask)]

/-- `self.policy.get(permission, PermissionLevel.DENY)`: unknown permissions
default to deny. -/
def policy_level (policy : List (String × PermissionLevel)) (perm : String) : PermissionLevel :=
  match policy.find? (fun kv => kv.1 == perm) with
  | some kv => kv.2
  | none => .deny

/-- `PermissionManager.check_permission`. -/
def check_permission (policy : List (String × PermissionLevel)) (perm : String)
    (step_approved : Bool) : Bool :=
  match policy_level policy perm with
  | .allow => true
  | .deny => false
  | .ask => step_approved

/-- `PermissionManager.requires_approval`. -/
def requires_approval (policy : List (String × PermissionLevel)) (perm : String) : Bool :=
  policy_level policy perm == .ask

/-- The in-memory mutation `step.skill_config["approved"] = True` performed on
the task's step object. -/
def set_approved (t : Task) (sid : String) : Task :=
  { t with
    steps := updFirst sid
      (fun s => { s with skill_config := cfg_set s.skill_config "approved" (.bool true) })
      t.steps }

/-- Permission loop of `Agent.run_loop` (daemon / non-interactive path):
for each required permission that is ask-level, under safe mode the task is
reloaded from the store (`latest`) and the step's `approved` flag is checked;
an unapproved ask-permission marks the step blocked and denies execution. -/
def gate_loop (policy : List (String × PermissionLevel)) (safe_mode : Bool)
    (t latest : Task) (sid : String) (perms : List String) (now : Nat) : Bool × Task :=
  match perms with
  | [] => (true, t)
  | perm :: rest =>
    if requires_approval policy perm then
      if safe_mode then
        match latest.get_step sid with
        | some latest_step =>
          if (cfg_get latest_step.skill_config "approved").truthy then
            gate_loop policy safe_mode (set_approved t sid) latest sid rest now
          else
            (false, update_step_state t sid .blocked .null
              (some ("Waiting for approval (" ++ perm ++ ")")) now)
        | none =>
          (false, update_step_state t sid .blocked .null
            (some ("Waiting for approval (" ++ perm ++ ")")) now)
      else
        gate_loop policy safe_mode t latest sid rest now
    else
      gate_loop policy safe_mode t latest sid rest now

/-- Permission check of `Agent.run_loop` (step 2), daemon path: an explicit
`approved is True` in the step config short-circuits; otherwise the loop over
`skill.config.permissions_required` runs. Returns whether the step may run
together with the possibly-updated task. -/
def permission_gate (policy : List (String × PermissionLevel)) (safe_mode : Bool)
    (t latest : Task) (step : TaskStep) (perms : List String) (now : Nat) : Bool × Task :=
  match cfg_get step.skill_config "approved" with
  | .bool true => (true, t)
  | _ => gate_loop policy safe_mode t latest step.id perms now

/-- The `agent approve` CLI command: load the task, set the step's `approved`
config flag, save. It does not change the step's state. -/
def cli_approve (t : Task) (sid : String) (now : Nat) : Task :=
  match t.get_step sid with
  | none => t
  | some _ => save_task (set_approved t sid) now

/-- Prologue of `Agent.run_loop`: the resumed task is unconditionally set to
running and saved before the loop starts. -/
def run_loop_start (t : Task) (now : Nat) : Task :=
  save_task { t with state := .running } now

/-- ASCII lowercase of a string, the image of Python `str.lower()` on the
error texts and patterns involved. -/
def lowerStr (s : String) : String :=
  String.mk (s.data.map Char.toLower)

/-- Does `needle` stand at the head of `hay`? -/
def strHead : List Char → List Char → Bool
  | [], _ => true
  | _ :: _, [] => false
  | c :: cs, d :: ds => c == d && strHead cs ds

/-- Python `needle in hay` substring containment on char lists. -/
def containsSub (needle : List Char) : List Char → Bool
  | [] => needle.isEmpty
  | d :: ds => strHead needle (d :: ds) || containsSub needle ds

/-- The `transient_patterns` list of `Agent._handle_step_failure`. -/
def transient_patterns : List String :=
  ["timeout", "connection", "network", "rate limit",
   "temporarily unavailable", "retry", "ECONNRESET"]

/-- `is_transient`: some pattern, lowercased, occurs in the lowercased error. -/
def is_transient (error : String) : Bool :=
  transient_patterns.any (fun p => containsSub (lowerStr p).data (lowerStr error).data)

/-- Result of `planner.replan`: a (possibly empty) recovery step list, or the
call raising an exception. -/
inductive ReplanResult where
  | steps (recovery : List TaskStep)
  | failure (msg : String)

/-- Outcome of one `skill.execute` call inside the transient-retry branch: a
result object carrying an optional error attribute, or a raised exception. -/
inductive ExecOutcome where
  | res (out : JVal) (err : Option String)
  | exc (msg : String)

/-- The mark-failed-once guard of `_handle_step_failure`:
`if step.state != StepState.FAILED: update_step_state(..., FAILED, ...)`. -/
def mark_failed_once (t : Task) (sid : String) (error : String) (now : Nat) : Task :=
  match t.get_step sid with
  | some s => if s.state = .failed then t else update_step_state t sid .failed .null (some error) now
  | none => update_step_state t sid .failed .null (some error) now

/-- Indexed walk of the live step list for the skip-remaining-pending loop of
`_handle_step_failure`; the fuel is the (invariant) list length. -/
def skip_pending_from (now : Nat) : Nat → Nat → Task → Task
  | 0, _, t => t
  | fuel + 1, i, t =>
    match t.steps[i]? with
    | none => t
    | some s =>
      skip_pending_from now fuel (i + 1)
        (if s.state = .pending then
          update_step_state t s.id .skipped .null (some "Plan changed") now
        else t)

/-- The loop `for s in task.steps: if s.state == PENDING: update(..., SKIPPED,
error="Plan changed")`. -/
def skip_pending (t : Task) (now : Nat) : Task :=
  skip_pending_from now t.steps.length 0 t

/-- Persistent-failure tail of `Agent._handle_step_failure`: mark the step
failed (guarded), then act on the replanner's answer. On recovery steps the
failing step and all still-pending steps are skipped, the recovery steps are
appended and the task is forced back to running; on an empty answer or a
replanning exception the step is marked failed again. -/
def self_correct (replan : ReplanResult) (t : Task) (sid : String) (error : String)
    (now : Nat) : Task :=
  let t1 := mark_failed_once t sid error now
  match replan with
  | .failure _ => update_step_state t1 sid .failed .null (some error) now
  | .steps [] => update_step_state t1 sid .failed .null (some error) now
  | .steps (r :: rs) =>
    let t2 := update_step_state t1 sid .skipped .null
      (some ("Replaced by recovery: " ++ error)) now
    let t3 := skip_pending t2 now
    let t4 := (r :: rs).foldl (fun acc ns => add_step acc ns now) t3
    save_task { t4 with state := .running } now

/-- `MAX_RETRIES` local to `_handle_step_failure`. -/
def MAX_RETRIES : Nat := 2

/-- `Agent._handle_step_failure`. The executions attempted by the transient
retry branch are supplied by `oracle` (indexed by the attempt counter), the
replanner's answer by `replan`. Returns the resulting task together with the
list of backoff delays slept, in order. -/
def handle_step_failure (oracle : Nat → ExecOutcome) (replan : ReplanResult)
    (t : Task) (sid : String) (error : String) (attempt : Nat) (now : Nat) :
    Task × List Nat :=
  if h : is_transient error = true ∧ attempt < MAX_RETRIES then
    match oracle attempt with
    | .res out err =>
      match err with
      | some e =>
        if e.isEmpty then
          (update_step_state t sid .completed out none now, [2 ^ attempt])
        else
          let r := handle_step_failure oracle replan t sid e (attempt + 1) now
          (r.1, 2 ^ attempt :: r.2)
      | none =>
        (update_step_state t sid .completed out none now, [2 ^ attempt])
    | .exc m =>
      let r := handle_step_failure oracle replan t sid m (attempt + 1) now
      (r.1, 2 ^ attempt :: r.2)
  else
    (self_correct replan t sid error now, [])
termination_by MAX_RETRIES - attempt
decreasing_by
  all_goals
    have hlt := h.2
    omega

/-- Serialized form of a `StepState` / `TaskState` value (pydantic string
enums dump their value). -/
def encodeStepState : StepState → String
  | .pending => "pending"
  | .running => "running"
  | .blocked => "blocked"
  | .completed => "completed"
  | .failed => "failed"
  | .skipped => "skipped"

/-- Parse a serialized step state. -/
def decodeStepState (s : String) : Option StepState :=
  if s = "pending" then some .pending
  else if s = "running" then some .running
  else if s = "blocked" then some .blocked
  else if s = "completed" then some .completed
  else if s = "failed" then some .failed
  else if s = "skipped" then some .skipped
  else none

/-- Serialized form of a `TaskState` value. -/
def encodeTaskState : TaskState → String
  | .pending => "pending"
  | .running => "running"
  | .blocked => "blocked"
  | .completed => "completed"
  | .failed => "failed"
  | .cancelled => "cancelled"

/-- Parse a serialized task state. -/
def decodeTaskState (s : String) : Option TaskState :=
  if s = "pending" then some .pending
  else if s = "running" then some .running
  else if s = "blocked" then some .blocked
  else if s = "completed" then some .completed
  else if s = "failed" then some .failed
  else if s = "cancelled" then some .cancelled
  else none

/-- Optional strings dump as `null` or a string. -/
def encodeOptStr : Option String → JVal
  | none => .null
  | some s => .str s

/-- Parse an optional string field. -/
def decodeOptStr : JVal → Option (Option String)
  | .null => some none
  | .str s => some (some s)
  | _ => none

/-- Optional timestamps dump as `null` or a number. -/
def encodeOptNat : Option Nat → JVal
  | none => .null
  | some n => .num n

/-- Parse an optional timestamp field. -/
def decodeOptNat : JVal → Option (Option Nat)
  | .null => some none
  | .num n => some (some n)
  | _ => none

/-- Parse a list of serialized strings (dependency identifiers). -/
def decodeStrList : List JVal → Option (List String)
  | [] => some []
  | .str s :: rest => (decodeStrList rest).map (fun l => s :: l)
  | _ :: _ => none

/-- Field lookup in a serialized object. -/
def jget (j : JVal) (k : String) : Option JVal :=
  match j with
  | .obj fields => (fields.find? (fun kv => kv.1 == k)).map (fun kv => kv.2)
  | _ => none

/-- Serialized form of a `TaskStep` (pydantic `model_dump_json`). -/
def encodeStep (s : TaskStep) : JVal :=
  .obj [("id", .str s.id), ("skill_name", .str s.skill_name),
        ("skill_config", .obj s.skill_config), ("state", .str (encodeStepState s.state)),
        ("output", s.output), ("error", encodeOptStr s.error),
        ("retry_count", .num s.retry_count), ("max_retries", .num s.max_retries),
        ("dependencies", .arr (s.dependencies.map .str)),
        ("started_at", encodeOptNat s.started_at),
        ("completed_at", encodeOptNat s.completed_at)]

/-- Parse a serialized `TaskStep` by field name (pydantic `TaskStep(**data)`). -/
def decodeStep (j : JVal) : Option TaskStep :=
  match jget j "id", jget j "skill_name", jget j "skill_config", jget j "state",
        jget j "output", jget j "error", jget j "retry_count", jget j "max_retries",
        jget j "dependencies", jget j "started_at", jget j "completed_at" with
  | some (.str id), some (.str sk), some (.obj cfg), some (.str st), some out,
    some errj, some (.num rc), some (.num mr), some (.arr deps), some saj, some caj =>
    match decodeStepState st, decodeOptStr errj, decodeStrList deps,
          decodeOptNat saj, decodeOptNat caj with
    | some st', some err', some deps', some sa', some ca' =>
      some ⟨id, sk, cfg, st', out, err', rc, mr, deps', sa', ca'⟩
    | _, _, _, _, _ => none
  | _, _, _, _, _, _, _, _, _, _, _ => none

/-- Parse a list of serialized steps. -/
def decodeStepList : List JVal → Option (List TaskStep)
  | [] => some []
  | j :: rest =>
    match decodeStep j, decodeStepList rest with
    | some s, some l => some (s :: l)
    | _, _ => none

/-- Serialized form of an `Artifact`. -/
def encodeArtifact (a : Artifact) : JVal :=
  .obj [("id", .str a.id), ("name", .str a.name), ("content", encodeOptStr a.content),
        ("path", encodeOptStr a.path), ("created_at", .num a.created_at)]

/-- Parse a serialized `Artifact`. -/
def decodeArtifact (j : JVal) : Option Artifact :=
  match jget j "id", jget j "name", jget j "content", jget j "path", jget j "created_at" with
  | some (.str id), some (.str nm), some cj, some pj, some (.num ca) =>
    match decodeOptStr cj, decodeOptStr pj with
    | some c', some p' => some ⟨id, nm, c', p', ca⟩
    | _, _ => none
  | _, _, _, _, _ => none

/-- Parse a list of serialized artifacts. -/
def decodeArtifactList : List JVal → Option (List Artifact)
  | [] => some []
  | j :: rest =>
    match decodeArtifact j, decodeArtifactList rest with
    | some a, some l => some (a :: l)
    | _, _ => none

/-- Serialized form of a `Task` (the durable record `save_task` writes). -/
def encodeTask (t : Task) : JVal :=
  .obj [("id", .str t.id), ("goal", .str t.goal),
        ("steps", .arr (t.steps.map encodeStep)),
        ("state", .str (encodeTaskState t.state)),
        ("artifacts", .arr (t.artifacts.map encodeArtifact)),
        ("context", .obj t.context),
        ("created_at", .num t.created_at), ("updated_at", .num t.updated_at)]

/-- Parse a serialized `Task` (pydantic `Task(**json.load(f))`). -/
def decodeTask (j : JVal) : Option Task :=
  match jget j "id", jget j "goal", jget j "steps", jget j "state", jget j "artifacts",
        jget j "context", jget j "created_at", jget j "updated_at" with
  | some (.str id), some (.str goal), some (.arr steps), some (.str st),
    some (.arr arts), some (.obj ctx), some (.num ca), some (.num ua) =>
    match decodeStepList steps, decodeTaskState st, decodeArtifactList arts with
    | some steps', some st', some arts' => some ⟨id, goal, steps', st', arts', ctx, ca, ua⟩
    | _, _, _ => none
  | _, _, _, _, _, _, _, _ => none

/-- The durable record `TaskEngine.save_task` writes: stamp `updated_at`, then
dump the task. -/
def save_task_json (t : Task) (now : Nat) : JVal :=
  encodeTask (save_task t now)

/-- `TaskEngine.load_task` applied to a stored record. -/
def load_task (j : JVal) : Option Task :=
  decodeTask j

/-- The high-risk skill set hard-coded in `Agent.run_loop` for the guardrail
check (step 2b). -/
def high_risk_skills : List String :=
  ["shell_command", "file_write", "file_edit", "skill_create"]
/-- A fresh step with default counters, as the planner creates them. -/
def mkStep (id : String) (sk : String) (st : StepState) : TaskStep :=
  { id := id, skill_name := sk, skill_config := [], state := st, output := .null,
    error := none, retry_count := 0, max_retries := 3, dependencies := [],
    started_at := none, completed_at := none }
/-- A small concrete task around a given step list. -/
def mkTask (steps : List TaskStep) (st : TaskState) : Task :=
  { id := "t1", goal := "goal", steps := steps, state := st, artifacts := [],
    context := [], created_at := 0, updated_at := 0 }
/-- Concrete task for the C10 witness: a completed step and a skipped step. -/
def tC10 : Task := mkTask [mkStep "a" "chat" .completed, mkStep "b" "chat" .skipped] .running
/-- Concrete terminal task for C9: completed, with one completed step. -/
def tC9 : Task := mkTask [mkStep "a" "chat" .completed] .completed
/-- Concrete step for C2: the app-control skill, whose required permission
`app_control` is absent from the agent's policy and therefore deny-level. -/
def stepC2 : TaskStep := mkStep "s1" "app_control" .pending
/-- Concrete task around `stepC2`. -/
def tC2 : Task := mkTask [stepC2] .running
/-- Concrete step for C1: the file-write skill, whose required permission
`file_write` is ask-level; no approval set. -/
def stepC1 : TaskStep := mkStep "s1" "file_write" .pending
/-- Concrete task around `stepC1`. -/
def tC1 : Task := mkTask [stepC1] .running
/-- The gate decision for `stepC1` under safe mode with the store copy equal
to the in-memory copy (no approval written yet). -/
def gateC1 : Bool × Task := permission_gate agentPolicy true tC1 tC1 stepC1 ["file_write"] 2

/-- The step ids of a step list, in order. -/
def stepIds (l : List TaskStep) : List String := l.map (fun s => s.id)

/-- The per-step effect of the skip-remaining-pending loop of
`_handle_step_failure` on one step. -/
def skipIfPending (now : Nat) (s : TaskStep) : TaskStep :=
  if s.state = .pending then applyUpd .skipped .null (some "Plan changed") now s else s

/-- Concrete task for C4: one pending step bound to an unknown capability. -/
def tC4 : Task := mkTask [mkStep "s1" "nonexistent_skill" .pending] .running

/-- `tC4` after the run loop records the skill-not-found failure. -/
def tC4f : Task := update_step_state tC4 "s1" .failed .null (some "Skill not found") 1

/-- Execution oracle for scenarios where every retry execution raises. -/
def oracleExc : Nat → ExecOutcome := fun _ => .exc "unavailable"

/-- Concrete task for C3: one running step that is about to fail. -/
def tC3 : Task := mkTask [mkStep "s1" "shell_command" .running] .running

/-- Concrete task for C7: one running step about to fail transiently. -/
def tC7 : Task := mkTask [mkStep "s1" "web_search" .running] .running

/-- Execution oracle for C7: the retry execution succeeds. -/
def oracleC7 : Nat → ExecOutcome := fun _ => .res (.str "ok") none

/-- Transient classification as the specification words it (substrings
timeout, connection, network, rate limit, "temporarily unavailable", retry,
reset, case-insensitively), for comparison against the source's
`is_transient`, whose last pattern is ECONNRESET rather than reset. -/
def spec_is_transient (error : String) : Bool :=
  ["timeout", "connection", "network", "rate limit",
   "temporarily unavailable", "retry", "reset"].any
    (fun p => containsSub (lowerStr p).data (lowerStr error).data)

/-- Concrete task for the C6 witness: a completed step, a running (failing)
step and a pending step. -/
def tC6 : Task := mkTask
  [mkStep "a" "chat" .completed, mkStep "b" "shell_command" .running,
   mkStep "c" "chat" .pending] .running

/-! Round-trip lemmas for the persisted task format. -/

theorem decodeStepState_encode (s : StepState) : decodeStepState (encodeStepState s) = some s := by
  cases s <;> rfl

theorem decodeTaskState_encode (s : TaskState) : decodeTaskState (encodeTaskState s) = some s := by
  cases s <;> rfl

theorem decodeOptStr_encode (o : Option String) : decodeOptStr (encodeOptStr o) = some o := by
  cases o <;> rfl

theorem decodeOptNat_encode (o : Option Nat) : decodeOptNat (encodeOptNat o) = some o := by
  cases o <;> rfl

theorem decodeStrList_map (l : List String) : decodeStrList (l.map .str) = some l := by
  induction l with
  | nil => rfl
  | cons s rest ih => simp [decodeStrList, ih]

theorem decodeStep_encode (s : TaskStep) : decodeStep (encodeStep s) = some s := by
  obtain ⟨id, sk, cfg, st, out, err, rc, mr, deps, sa, ca⟩ := s
  simp [decodeStep, encodeStep, jget, decodeStepState_encode, decodeOptStr_encode,
    decodeStrList_map, decodeOptNat_encode]

theorem decodeStepList_map (l : List TaskStep) : decodeStepList (l.map encodeStep) = some l := by
  induction l with
  | nil => rfl
  | cons s rest ih => simp [decodeStepList, decodeStep_encode, ih]

theorem decodeArtifact_encode (a : Artifact) : decodeArtifact (encodeArtifact a) = some a := by
  obtain ⟨id, nm, c, p, ca⟩ := a
  simp [decodeArtifact, encodeArtifact, jget, decodeOptStr_encode]

theorem decodeArtifactList_map (l : List Artifact) :
    decodeArtifactList (l.map encodeArtifact) = some l := by
  induction l with
  | nil => rfl
  | cons a rest ih => simp [decodeArtifactList, decodeArtifact_encode, ih]

theorem decodeTask_encode (t : Task) : decodeTask (encodeTask t) = some t := by
  obtain ⟨id, goal, steps, st, arts, ctx, ca, ua⟩ := t
  simp [decodeTask, encodeTask, jget, decodeStepList_map, decodeTaskState_encode,
    decodeArtifactList_map]

/-- C8: saving a task and loading it back by its identifier reproduces the
task exactly as saved (the save stamps `updated_at`); in particular the loaded
task has the very same step list — same order, same per-step states, same
dependency identifier lists — as the task that was saved. -/
theorem c8_save_load_roundtrip (t : Task) (now : Nat) :
    load_task (save_task_json t now) = some (save_task t now) ∧
    (save_task t now).steps = t.steps :=
  ⟨decodeTask_encode _, rfl⟩

/-! Characterization of the dependency scheduler. -/

theorem runnable_go_filter (cids : List String) (l : List TaskStep) : ∀ acc,
    runnable_go cids acc l = acc ++ l.filter (fun s => decide (
      (s.state = .pending ∨ (s.state = .failed ∧ s.retry_count < s.max_retries)) ∧
      ∀ d ∈ s.dependencies, d ∈ cids)) := by
  induction l with
  | nil => intro acc; simp [runnable_go]
  | cons s rest ih =>
    intro acc
    show (if s.state = .pending ∨ s.state = .failed then
        if s.state = .failed ∧ s.max_retries ≤ s.retry_count then
          runnable_go cids acc rest
        else if s.dependencies.all (fun d => cids.contains d) then
          runnable_go cids (acc ++ [s]) rest
        else
          runnable_go cids acc rest
      else
        runnable_go cids acc rest) = _
    by_cases h1 : s.state = .pending ∨ s.state = .failed
    · by_cases h2 : s.state = .failed ∧ s.max_retries ≤ s.retry_count
      · have hp : ¬ ((s.state = .pending ∨ (s.state = .failed ∧ s.retry_count < s.max_retries)) ∧
            ∀ d ∈ s.dependencies, d ∈ cids) := by
          rintro ⟨hA, -⟩
          rcases hA with h | ⟨_, hlt⟩
          · rw [h] at h2; exact absurd h2.1 (by simp)
          · omega
        rw [if_pos h1, if_pos h2, ih, List.filter_cons,
          if_neg (by rw [decide_eq_false hp]; exact Bool.false_ne_true)]
      · by_cases h3 : ∀ d ∈ s.dependencies, d ∈ cids
        · have hall : s.dependencies.all (fun d => cids.contains d) = true :=
            List.all_eq_true.mpr (fun d hd => by simpa using h3 d hd)
          have hp : (s.state = .pending ∨ (s.state = .failed ∧ s.retry_count < s.max_retries)) ∧
              ∀ d ∈ s.dependencies, d ∈ cids := by
            refine ⟨?_, h3⟩
            rcases h1 with h | h
            · exact Or.inl h
            · refine Or.inr ⟨h, ?_⟩
              by_contra hge
              exact h2 ⟨h, by omega⟩
          rw [if_pos h1, if_neg h2, if_pos hall, ih, List.filter_cons,
            if_pos (by simpa using decide_eq_true hp)]
          simp
        · have hall : ¬ (s.dependencies.all (fun d => cids.contains d) = true) := by
            intro hall'
            exact h3 (fun d hd => by simpa using List.all_eq_true.mp hall' d hd)
          have hp : ¬ ((s.state = .pending ∨ (s.state = .failed ∧ s.retry_count < s.max_retries)) ∧
              ∀ d ∈ s.dependencies, d ∈ cids) := by
            rintro ⟨-, hd⟩
            exact h3 hd
          rw [if_pos h1, if_neg h2, if_neg hall, ih, List.filter_cons,
            if_neg (by rw [decide_eq_false hp]; exact Bool.false_ne_true)]
    · have hp : ¬ ((s.state = .pending ∨ (s.state = .failed ∧ s.retry_count < s.max_retries)) ∧
          ∀ d ∈ s.dependencies, d ∈ cids) := by
        rintro ⟨hA, -⟩
        rcases hA with h | ⟨h, -⟩
        · exact h1 (Or.inl h)
        · exact h1 (Or.inr h)
      rw [if_neg h1, ih, List.filter_cons,
        if_neg (by rw [decide_eq_false hp]; exact Bool.false_ne_true)]

theorem mem_completed_ids (t : Task) (d : String) :
    d ∈ (t.steps.filter (fun s => decide (s.state = .completed))).map (fun s => s.id) ↔
    ∃ c ∈ t.steps, c.id = d ∧ c.state = .completed := by
  simp only [List.mem_map, List.mem_filter, decide_eq_true_eq]
  constructor
  · rintro ⟨c, ⟨hc, hcs⟩, hid⟩
    exact ⟨c, hc, hid, hcs⟩
  · rintro ⟨c, hc, hid, hcs⟩
    exact ⟨c, ⟨hc, hcs⟩, hid⟩

theorem get_runnable_steps_filter (t : Task) :
    get_runnable_steps t = t.steps.filter (fun s => decide (
      (s.state = .pending ∨ (s.state = .failed ∧ s.retry_count < s.max_retries)) ∧
      ∀ d ∈ s.dependencies, ∃ c ∈ t.steps, c.id = d ∧ c.state = .completed)) := by
  rw [get_runnable_steps]
  rw [runnable_go_filter]
  rw [List.nil_append]
  apply List.filter_congr
  intro s _
  rw [decide_eq_decide]
  constructor
  · rintro ⟨hA, hd⟩
    exact ⟨hA, fun d hdm => (mem_completed_ids t d).mp (hd d hdm)⟩
  · rintro ⟨hA, hd⟩
    exact ⟨hA, fun d hdm => (mem_completed_ids t d).mpr (hd d hdm)⟩

/-- C5: `get_runnable_steps` returns exactly the steps that are pending, or
failed with retries remaining, all of whose dependency identifiers name a
completed step — as a filter of the step list, hence in declaration order; in
particular it never contains a step with a dependency that is not completed. -/
theorem c5_runnable_steps_are_exactly_ready_steps (t : Task) :
    get_runnable_steps t = t.steps.filter (fun s => decide (
      (s.state = .pending ∨ (s.state = .failed ∧ s.retry_count < s.max_retries)) ∧
      ∀ d ∈ s.dependencies, ∃ c ∈ t.steps, c.id = d ∧ c.state = .completed)) :=
  get_runnable_steps_filter t


/-! Claim C10: skipped steps and the completion check. -/

/-- C10: with at least one skipped step and no failed step with retries
exhausted, `check_task_completion` returns false and leaves the task
untouched — so a task whose plan was rewritten by a successful replan (which
marks steps skipped) is never marked completed by the completion check. -/
theorem c10_skipped_step_precludes_completion (t : Task) (now : Nat)
    (hskip : ∃ s ∈ t.steps, s.state = .skipped)
    (hnof : ∀ s ∈ t.steps, ¬ (s.state = .failed ∧ s.max_retries ≤ s.retry_count)) :
    check_task_completion t now = (false, t) := by
  obtain ⟨s0, hs0, hsk⟩ := hskip
  have hne : ¬ (t.steps.isEmpty = true) := by
    cases h : t.steps with
    | nil => rw [h] at hs0; simp at hs0
    | cons a l => simp [h]
  have hnall : ¬ (t.steps.all (fun s => decide (s.state = .completed)) = true) := by
    rw [List.all_eq_true]
    intro hall
    have := hall s0 hs0
    rw [hsk] at this
    simp at this
  have hnany : ¬ (t.steps.any (fun s => decide (s.state = .failed ∧ s.max_retries ≤ s.retry_count)) = true) := by
    rw [List.any_eq_true]
    rintro ⟨s, hs, hdec⟩
    exact hnof s hs (by simpa using hdec)
  rw [check_task_completion, if_neg hne, if_neg hnall, if_neg hnany]


theorem c10_witness :
    (∃ s ∈ tC10.steps, s.state = .skipped) ∧
    (∀ s ∈ tC10.steps, ¬ (s.state = .failed ∧ s.max_retries ≤ s.retry_count)) ∧
    check_task_completion tC10 9 = (false, tC10) :=
  ⟨by decide, by decide, c10_skipped_step_precludes_completion tC10 9 (by decide) (by decide)⟩

/-! Claim C9: terminal task states. -/

/-- The completion check either leaves the task state alone or assigns a
terminal state. -/
theorem check_task_completion_state (t : Task) (now : Nat) :
    (check_task_completion t now).2.state = t.state ∨
    (check_task_completion t now).2.state = .completed ∨
    (check_task_completion t now).2.state = .failed := by
  rw [check_task_completion]
  by_cases h1 : t.steps.isEmpty = true
  · rw [if_pos h1]; exact Or.inl rfl
  · rw [if_neg h1]
    by_cases h2 : t.steps.all (fun s => decide (s.state = .completed)) = true
    · rw [if_pos h2]; exact Or.inr (Or.inl rfl)
    · rw [if_neg h2]
      by_cases h3 : t.steps.any (fun s => decide (s.state = .failed ∧ s.max_retries ≤ s.retry_count)) = true
      · rw [if_pos h3]; exact Or.inr (Or.inr rfl)
      · rw [if_neg h3]; exact Or.inl rfl


/-- C9 counterexample: the run loop is an engine operation, and resuming a
task that is already in the terminal state completed unconditionally sets its
state back to running — the task transitions out of its terminal state. -/
theorem c9_cex_run_loop_restarts_terminal_task :
    tC9.state = .completed ∧ (run_loop_start tC9 5).state = .running :=
  ⟨rfl, rfl⟩

/-- C9 amended: the engine's step and completion operations never move a
terminal task to a non-terminal state — `update_step_state` and `add_step`
preserve the task state and `check_task_completion` only ever assigns
terminal states — but the run loop's startup unconditionally sets the state
to running, so resuming a terminal task does leave its terminal state. -/
theorem c9_amended_terminal_preserved_except_run_loop_start (t : Task) (sid : String)
    (st : StepState) (out : JVal) (err : Option String) (s : TaskStep) (now : Nat)
    (h : t.state = .completed ∨ t.state = .failed ∨ t.state = .cancelled) :
    (update_step_state t sid st out err now).state = t.state ∧
    (add_step t s now).state = t.state ∧
    ((check_task_completion t now).2.state = .completed ∨
      (check_task_completion t now).2.state = .failed ∨
      (check_task_completion t now).2.state = .cancelled) ∧
    (run_loop_start t now).state = .running := by
  refine ⟨?_, rfl, ?_, rfl⟩
  · unfold update_step_state
    cases t.get_step sid <;> rfl
  · rcases check_task_completion_state t now with hc | hc | hc
    · rw [hc]
      rcases h with h | h | h
      · exact Or.inl h
      · exact Or.inr (Or.inl h)
      · exact Or.inr (Or.inr h)
    · exact Or.inl hc
    · exact Or.inr (Or.inl hc)

theorem c9_witness :
    (tC9.state = .completed ∨ tC9.state = .failed ∨ tC9.state = .cancelled) ∧
    ((update_step_state tC9 "a" .running .null none 7).state = tC9.state ∧
      (add_step tC9 (mkStep "x" "chat" .pending) 7).state = tC9.state ∧
      ((check_task_completion tC9 7).2.state = .completed ∨
        (check_task_completion tC9 7).2.state = .failed ∨
        (check_task_completion tC9 7).2.state = .cancelled) ∧
      (run_loop_start tC9 7).state = .running) :=
  ⟨Or.inl rfl,
    c9_amended_terminal_preserved_except_run_loop_start tC9 "a" .running .null none
      (mkStep "x" "chat" .pending) 7 (Or.inl rfl)⟩

/-! Claim C2: deny-level permissions. -/

/-- The run-loop permission loop skips every permission whose policy level is
deny, because `requires_approval` is true only for ask. -/
theorem gate_loop_all_deny (policy : List (String × PermissionLevel)) (safe_mode : Bool)
    (t latest : Task) (sid : String) (now : Nat) (perms : List String)
    (hall : ∀ p ∈ perms, policy_level policy p = .deny) :
    gate_loop policy safe_mode t latest sid perms now = (true, t) := by
  induction perms with
  | nil => rfl
  | cons p rest ih =>
    have hp : requires_approval policy p = false := by
      unfold requires_approval
      rw [hall p (List.mem_cons_self p rest)]
      rfl
    rw [gate_loop, hp]
    simp only [Bool.false_eq_true, if_false]
    exact ih (fun q hq => hall q (List.mem_cons_of_mem p hq))

/-- C2 amended: `check_permission` rejects a deny-level permission
unconditionally (even with the approval override), but the run loop's gate
consults only `requires_approval`, which is false for deny, so a step all of
whose required permissions are deny-level passes the gate unchanged and
proceeds to execution. -/
theorem c2_amended_deny_rejected_by_policy_but_not_by_gate
    (policy : List (String × PermissionLevel)) (perm : String) (approved : Bool)
    (safe_mode : Bool) (t latest : Task) (step : TaskStep) (perms : List String) (now : Nat)
    (hd : policy_level policy perm = .deny)
    (hall : ∀ p ∈ perms, policy_level policy p = .deny) :
    check_permission policy perm approved = false ∧
    permission_gate policy safe_mode t latest step perms now = (true, t) := by
  constructor
  · unfold check_permission
    rw [hd]
  · have hg : gate_loop policy safe_mode t latest step.id perms now = (true, t) :=
      gate_loop_all_deny policy safe_mode t latest step.id now perms hall
    unfold permission_gate
    cases hv : cfg_get step.skill_config "approved" with
    | null => exact hg
    | bool b =>
      cases b with
      | false => exact hg
      | true => rfl
    | str s => exact hg
    | num n => exact hg
    | arr xs => exact hg
    | obj fields => exact hg


/-- C2 counterexample: the permission `app_control` (required by the
app-control skill) is deny-level under the agent's policy and
`check_permission` rejects it, yet the run loop's authorization gate lets the
step through unchanged — and the skill is not in the guardrail's high-risk
set, so the step is executed. -/
theorem c2_cex_deny_step_passes_gate :
    policy_level agentPolicy "app_control" = .deny ∧
    check_permission agentPolicy "app_control" true = false ∧
    permission_gate agentPolicy true tC2 tC2 stepC2 ["app_control"] 3 = (true, tC2) ∧
    high_risk_skills.contains "app_control" = false :=
  ⟨rfl, rfl, rfl, rfl⟩

theorem c2_witness :
    policy_level agentPolicy "net_access2" = .deny ∧
    (check_permission agentPolicy "net_access2" false = false ∧
      permission_gate agentPolicy true tC2 tC2 stepC2 ["net_access2"] 4 = (true, tC2)) :=
  ⟨rfl,
    c2_amended_deny_rejected_by_policy_but_not_by_gate agentPolicy "net_access2" false
      true tC2 tC2 stepC2 ["net_access2"] 4 rfl (by decide)⟩

/-! Claim C1: blocked steps and external approval. -/


/-- C1: evaluating the code on the spec's own scenario. An ask-level step
under safe mode with no approval is denied and marked blocked, as claimed;
but after the approve command sets `approved=true` in the persisted task, the
step is still in state blocked, and `get_runnable_steps` — which only returns
pending or failed steps — returns nothing, so the step is never executed. -/
theorem c1_blocked_step_never_rescheduled_after_approval :
    gateC1.1 = false ∧
    (gateC1.2.get_step "s1").map (fun s => s.state) = some .blocked ∧
    ((cli_approve gateC1.2 "s1" 3).get_step "s1").map
      (fun s => cfg_get s.skill_config "approved") = some (.bool true) ∧
    get_runnable_steps (cli_approve gateC1.2 "s1" 3) = [] :=
  ⟨rfl, rfl, rfl, rfl⟩

/-! Machinery for reasoning about in-place step updates. -/

theorem applyUpd_id (st : StepState) (out : JVal) (err : Option String) (now : Nat)
    (s : TaskStep) : (applyUpd st out err now s).id = s.id := rfl

theorem updFirst_stepIds (sid : String) (f : TaskStep → TaskStep)
    (hf : ∀ s, (f s).id = s.id) (l : List TaskStep) :
    stepIds (updFirst sid f l) = stepIds l := by
  induction l with
  | nil => rfl
  | cons s rest ih =>
    rw [updFirst]
    by_cases h : (s.id == sid) = true
    · rw [if_pos h]
      simp [stepIds, hf]
    · rw [if_neg h]
      simp only [stepIds, List.map_cons]
      simp only [stepIds] at ih
      rw [ih]

theorem map_if_id_no_match (sid : String) (f : TaskStep → TaskStep) (l : List TaskStep)
    (h : ∀ x ∈ l, ¬ (x.id = sid)) :
    l.map (fun s => if s.id = sid then f s else s) = l := by
  induction l with
  | nil => rfl
  | cons s rest ih =>
    rw [List.map_cons, if_neg (h s (List.mem_cons_self s rest)),
      ih (fun x hx => h x (List.mem_cons_of_mem s hx))]

theorem updFirst_eq_map (sid : String) (f : TaskStep → TaskStep) (l : List TaskStep)
    (hN : (stepIds l).Nodup) :
    updFirst sid f l = l.map (fun s => if s.id = sid then f s else s) := by
  induction l with
  | nil => rfl
  | cons s rest ih =>
    have hN' : (stepIds rest).Nodup ∧ ¬ (s.id ∈ stepIds rest) := by
      rw [stepIds, List.map_cons, List.nodup_cons] at hN
      exact ⟨hN.2, hN.1⟩
    rw [updFirst, List.map_cons]
    by_cases h : s.id = sid
    · rw [if_pos (by simpa using h), if_pos h]
      have hnot : ∀ x ∈ rest, ¬ (x.id = sid) := by
        intro x hx hxe
        exact hN'.2 (by rw [h, ← hxe]; exact List.mem_map_of_mem _ hx)
      rw [map_if_id_no_match sid f rest hnot]
    · rw [if_neg (by simpa using h), if_neg h, ih hN'.1]

theorem find?_updFirst (sid : String) (f : TaskStep → TaskStep)
    (hf : ∀ s, (f s).id = s.id) (l : List TaskStep) :
    (updFirst sid f l).find? (fun s => s.id == sid) =
      (l.find? (fun s => s.id == sid)).map f := by
  induction l with
  | nil => rfl
  | cons s rest ih =>
    by_cases h : (s.id == sid) = true
    · rw [updFirst, if_pos h,
        @List.find?_cons_of_pos _ (fun x => x.id == sid) (f s) rest (by simp only [hf]; exact h),
        @List.find?_cons_of_pos _ (fun x => x.id == sid) s rest h]
      rfl
    · rw [updFirst, if_neg h,
        @List.find?_cons_of_neg _ (fun x => x.id == sid) s (updFirst sid f rest) (by simpa using h),
        @List.find?_cons_of_neg _ (fun x => x.id == sid) s rest (by simpa using h), ih]

theorem mem_updFirst_of_ne (sid : String) (f : TaskStep → TaskStep) (l : List TaskStep)
    (c : TaskStep) (hc : c ∈ l) (hne : ¬ (c.id = sid)) : c ∈ updFirst sid f l := by
  induction l with
  | nil => exact absurd hc (List.not_mem_nil c)
  | cons s rest ih =>
    rw [updFirst]
    rcases List.mem_cons.mp hc with rfl | htail
    · rw [if_neg (by simpa using hne)]
      exact List.mem_cons_self c _
    · by_cases h : (s.id == sid) = true
      · rw [if_pos h]
        exact List.mem_cons_of_mem _ htail
      · rw [if_neg h]
        exact List.mem_cons_of_mem _ (ih htail)

theorem find?_isSome_of_id_mem (sid : String) (l : List TaskStep)
    (h : sid ∈ stepIds l) : ∃ s, l.find? (fun s => s.id == sid) = some s := by
  induction l with
  | nil => exact absurd h (by simp [stepIds])
  | cons s rest ih =>
    by_cases hs : (s.id == sid) = true
    · exact ⟨s, @List.find?_cons_of_pos _ (fun x => x.id == sid) s rest hs⟩
    · rw [stepIds, List.map_cons, List.mem_cons] at h
      rcases h with h | h
      · exact absurd (by simp [h]) hs
      · obtain ⟨x, hx⟩ := ih h
        exact ⟨x, by
          rw [@List.find?_cons_of_neg _ (fun x => x.id == sid) s rest (by simpa using hs), hx]⟩

theorem update_step_state_of_mem (t : Task) (sid : String) (st : StepState)
    (out : JVal) (err : Option String) (now : Nat) (h : sid ∈ stepIds t.steps) :
    update_step_state t sid st out err now =
      { t with steps := updFirst sid (applyUpd st out err now) t.steps, updated_at := now } := by
  obtain ⟨s, hs⟩ := find?_isSome_of_id_mem sid t.steps h
  unfold update_step_state Task.get_step
  rw [hs]
  rfl

theorem get_step_update_of_mem (t : Task) (sid : String) (st : StepState)
    (out : JVal) (err : Option String) (now : Nat) (h : sid ∈ stepIds t.steps) :
    (update_step_state t sid st out err now).get_step sid =
      (t.get_step sid).map (applyUpd st out err now) := by
  rw [update_step_state_of_mem t sid st out err now h]
  unfold Task.get_step
  exact find?_updFirst sid (applyUpd st out err now)
    (fun s => applyUpd_id st out err now s) t.steps

theorem find?_self_of_nodup (l : List TaskStep) (s : TaskStep)
    (hN : (stepIds l).Nodup) (hmem : s ∈ l) :
    l.find? (fun x => x.id == s.id) = some s := by
  induction l with
  | nil => exact absurd hmem (List.not_mem_nil s)
  | cons a rest ih =>
    have hN' : (stepIds rest).Nodup ∧ ¬ (a.id ∈ stepIds rest) := by
      rw [stepIds, List.map_cons, List.nodup_cons] at hN
      exact ⟨hN.2, hN.1⟩
    rcases List.mem_cons.mp hmem with rfl | htail
    · exact @List.find?_cons_of_pos _ (fun x => x.id == s.id) s rest (by simp)
    · have hne : ¬ ((a.id == s.id) = true) := by
        intro hbeq
        refine hN'.2 ?_
        rw [show a.id = s.id by simpa using hbeq]
        exact List.mem_map_of_mem _ htail
      rw [@List.find?_cons_of_neg _ (fun x => x.id == s.id) a rest hne]
      exact ih hN'.1 htail

/-! Claim C4: unknown capability names. -/

/-- C4 counterexample: after the run loop records the skill-not-found failure
for the step with the unknown capability, the step is failed with
`retry_count` 1 (below `max_retries` 3) and `get_runnable_steps` returns it
again — a retry is attempted, so the failure is not terminal on first
occurrence. -/
theorem c4_cex_unknown_skill_step_is_rescheduled :
    (tC4f.get_step "s1").map (fun s => (s.state, s.retry_count)) = some (.failed, 1) ∧
    (get_runnable_steps tC4f).map (fun s => s.id) = ["s1"] :=
  ⟨rfl, rfl⟩

/-- C4 amended: a step whose capability name does not resolve is immediately
marked failed with error "Skill not found" and its retry counter incremented,
but the failure is not terminal for the step: while `retry_count` stays below
`max_retries` the step is returned by `get_runnable_steps` again and
re-attempted (failing the same way each time); once `retry_count` reaches
`max_retries` the completion check reports the task failed. -/
theorem c4_amended_unknown_skill_fails_then_retries_until_exhaustion
    (t : Task) (s : TaskStep) (now : Nat)
    (hN : (stepIds t.steps).Nodup) (hmem : s ∈ t.steps) (hpend : s.state = .pending)
    (hdeps : ∀ d ∈ s.dependencies, ∃ c ∈ t.steps, c.id = d ∧ c.state = .completed) :
    let t1 := update_step_state t s.id .failed .null (some "Skill not found") now
    (t1.get_step s.id).map (fun x => (x.state, x.retry_count)) =
      some (.failed, s.retry_count + 1) ∧
    (s.retry_count + 1 < s.max_retries →
      ∃ s' ∈ get_runnable_steps t1, s'.id = s.id) ∧
    (s.max_retries ≤ s.retry_count + 1 →
      (check_task_completion t1 now).1 = true ∧
      (check_task_completion t1 now).2.state = .failed) := by
  intro t1
  have hsid : s.id ∈ stepIds t.steps := List.mem_map_of_mem _ hmem
  have hget : t.get_step s.id = some s := find?_self_of_nodup t.steps s hN hmem
  set s' := applyUpd .failed .null (some "Skill not found") now s with hs'
  have hget1 : t1.get_step s.id = some s' := by
    rw [show t1 = update_step_state t s.id .failed .null (some "Skill not found") now from rfl,
      get_step_update_of_mem t s.id .failed .null (some "Skill not found") now hsid, hget]
    rfl
  have hmem1 : s' ∈ t1.steps := List.mem_of_find?_eq_some hget1
  have hs'st : s'.state = .failed := rfl
  have hs'rc : s'.retry_count = s.retry_count + 1 := by
    rw [hs']
    simp [applyUpd]
  have hs'mr : s'.max_retries = s.max_retries := rfl
  have hs'dep : s'.dependencies = s.dependencies := rfl
  have hs'id : s'.id = s.id := rfl
  refine ⟨?_, ?_, ?_⟩
  · rw [hget1, Option.map_some']
    rw [hs'st, hs'rc]
  · intro hlt
    refine ⟨s', ?_, hs'id⟩
    rw [get_runnable_steps_filter t1]
    rw [List.mem_filter]
    refine ⟨hmem1, ?_⟩
    rw [decide_eq_true_eq]
    constructor
    · exact Or.inr ⟨hs'st, by rw [hs'rc, hs'mr]; exact hlt⟩
    · intro d hd
      rw [hs'dep] at hd
      obtain ⟨c, hc, hcid, hccomp⟩ := hdeps d hd
      have hcne : ¬ (c.id = s.id) := by
        intro hce
        have := List.inj_on_of_nodup_map (by simpa [stepIds] using hN) hc hmem hce
        rw [this] at hccomp
        rw [hpend] at hccomp
        exact absurd hccomp (by simp)
      have hcmem1 : c ∈ t1.steps := by
        rw [show t1 = update_step_state t s.id .failed .null (some "Skill not found") now from rfl,
          update_step_state_of_mem t s.id .failed .null (some "Skill not found") now hsid]
        exact mem_updFirst_of_ne s.id _ t.steps c hc hcne
      exact ⟨c, hcmem1, hcid, hccomp⟩
  · intro hge
    have hne : ¬ (t1.steps.isEmpty = true) := by
      cases h : t1.steps with
      | nil => rw [h] at hmem1; exact absurd hmem1 (List.not_mem_nil s')
      | cons a l => simp [h]
    have hnall : ¬ (t1.steps.all (fun x => decide (x.state = .completed)) = true) := by
      rw [List.all_eq_true]
      intro hall
      have := hall s' hmem1
      rw [hs'st] at this
      simp at this
    have hany : t1.steps.any (fun x => decide (x.state = .failed ∧ x.max_retries ≤ x.retry_count)) = true := by
      rw [List.any_eq_true]
      refine ⟨s', hmem1, ?_⟩
      rw [decide_eq_true_eq]
      exact ⟨hs'st, by rw [hs'rc, hs'mr]; exact hge⟩
    rw [check_task_completion, if_neg hne, if_neg hnall, if_pos hany]
    exact ⟨rfl, rfl⟩

/-! Claim C3: retry_count increments per failed transition. -/

/-- C3: evaluating the failure handler's persistent-failure path. For a
running step with retry_count 0 failing with the non-transient error
"invalid argument": when replanning yields no recovery steps, the step is
marked failed by the guarded mark and then marked failed a second time, so
its persisted retry_count ends at 2 for this single failure; the
replanning-exception path double-increments the same way. The claim (and the
code's own comment about not inflating retry_count) say once. -/
theorem c3_empty_replan_double_increments_retry_count :
    (tC3.get_step "s1").map (fun x => x.retry_count) = some 0 ∧
    ((handle_step_failure oracleExc (ReplanResult.steps []) tC3 "s1"
        "invalid argument" 0 7).1.get_step "s1").map
      (fun x => (x.state, x.retry_count)) = some (.failed, 2) ∧
    ((handle_step_failure oracleExc (ReplanResult.failure "planner down") tC3 "s1"
        "invalid argument" 0 7).1.get_step "s1").map
      (fun x => (x.state, x.retry_count)) = some (.failed, 2) := by
  have hnt : is_transient "invalid argument" = false := by decide
  have hcond : ¬ (is_transient "invalid argument" = true ∧ 0 < MAX_RETRIES) := by
    rw [hnt]
    simp
  refine ⟨rfl, ?_, ?_⟩
  · unfold handle_step_failure
    rw [dif_neg hcond]
    rfl
  · unfold handle_step_failure
    rw [dif_neg hcond]
    rfl

/-! Claim C7: transient failure classification and local retries. -/

/-- Like `Task.get_step` under any update: the looked-up step is the updated
image of the original, with no membership assumption. -/
theorem get_step_update (t : Task) (sid : String) (st : StepState)
    (out : JVal) (err : Option String) (now : Nat) :
    (update_step_state t sid st out err now).get_step sid =
      (t.get_step sid).map (applyUpd st out err now) := by
  unfold update_step_state
  cases hg : t.get_step sid with
  | none =>
    dsimp only
    exact hg
  | some s =>
    have hg' : t.steps.find? (fun x => x.id == sid) = some s := hg
    show (updFirst sid (applyUpd st out err now) t.steps).find? (fun x => x.id == sid) =
      Option.map (applyUpd st out err now) (some s)
    rw [find?_updFirst sid (applyUpd st out err now)
      (fun x => applyUpd_id st out err now x) t.steps, hg']

/-- The number of backoff sleeps the failure handler performs is bounded by
the remaining retry budget. -/
theorem handle_trace_length_le (oracle : Nat → ExecOutcome) (replan : ReplanResult)
    (t : Task) (sid : String) (now : Nat) :
    ∀ (k a : Nat) (e : String), MAX_RETRIES - a ≤ k →
      (handle_step_failure oracle replan t sid e a now).2.length ≤ MAX_RETRIES - a := by
  intro k
  induction k with
  | zero =>
    intro a e h0
    have hna : ¬ (a < MAX_RETRIES) := by omega
    unfold handle_step_failure
    rw [dif_neg (fun hc => hna hc.2)]
    simp
  | succ k ih =>
    intro a e hk
    by_cases hc : is_transient e = true ∧ a < MAX_RETRIES
    · have hrec : MAX_RETRIES - (a + 1) ≤ k := by omega
      unfold handle_step_failure
      rw [dif_pos hc]
      cases ho : oracle a with
      | res out err =>
        cases err with
        | none =>
          simp
          omega
        | some e' =>
          by_cases he : e'.isEmpty = true
          · simp [he]
            omega
          · have := ih (a + 1) e' hrec
            simp [he]
            omega
      | exc m =>
        have := ih (a + 1) m hrec
        simp
        omega
    · unfold handle_step_failure
      rw [dif_neg hc]
      simp

/-- C7 cex: the spec's substring list contains "reset", but the source's list
contains "ECONNRESET"; the error text "reset by peer" is transient per the
claim's list and not transient per the code. -/
theorem c7_cex_reset_alone_is_not_transient :
    spec_is_transient "reset by peer" = true ∧ is_transient "reset by peer" = false := by
  constructor <;> decide

/-- C7 amended: a failure is classified transient exactly when the lowercased
error text contains one of timeout, connection, network, rate limit,
"temporarily unavailable", retry, econnreset; when transient and the attempt
counter is below 2, the handler sleeps `2^attempt` and re-executes the same
step — a successful retry records the step completed without touching its
persisted retry_count, a renewed failure recurses with the attempt counter
incremented — and the total number of retry sleeps never exceeds the
remaining budget `2 - attempt`. -/
theorem c7_amended_transient_classification_and_bounded_retry
    (oracle : Nat → ExecOutcome) (replan : ReplanResult) (t : Task)
    (sid m e : String) (out : JVal) (attempt now : Nat)
    (ht : is_transient e = true) (ha : attempt < MAX_RETRIES) :
    (∀ e' : String, is_transient e' =
      (["timeout", "connection", "network", "rate limit",
        "temporarily unavailable", "retry", "econnreset"].any
        (fun p => containsSub p.data (lowerStr e').data))) ∧
    (oracle attempt = .res out none →
      handle_step_failure oracle replan t sid e attempt now =
        (update_step_state t sid .completed out none now, [2 ^ attempt]) ∧
      ((update_step_state t sid .completed out none now).get_step sid).map
          (fun x => x.retry_count) = (t.get_step sid).map (fun x => x.retry_count)) ∧
    (oracle attempt = .exc m →
      handle_step_failure oracle replan t sid e attempt now =
        ((handle_step_failure oracle replan t sid m (attempt + 1) now).1,
          2 ^ attempt :: (handle_step_failure oracle replan t sid m (attempt + 1) now).2)) ∧
    (∀ (e' : String) (a : Nat),
      (handle_step_failure oracle replan t sid e' a now).2.length ≤ MAX_RETRIES - a) := by
  refine ⟨fun e' => rfl, ?_, ?_, ?_⟩
  · intro ho
    constructor
    · unfold handle_step_failure
      rw [dif_pos ⟨ht, ha⟩, ho]
    · rw [get_step_update t sid .completed out none now]
      cases t.get_step sid with
      | none => rfl
      | some x => rfl
  · intro ho
    conv_lhs => rw [handle_step_failure]
    rw [dif_pos ⟨ht, ha⟩, ho]
  · intro e' a
    exact handle_trace_length_le oracle replan t sid now MAX_RETRIES a e' (by omega)

theorem c7_witness :
    is_transient "connection lost" = true ∧
    handle_step_failure oracleC7 (ReplanResult.steps []) tC7 "s1" "connection lost" 0 5 =
      (update_step_state tC7 "s1" .completed (.str "ok") none 5, [1]) :=
  ⟨by decide,
    ((c7_amended_transient_classification_and_bounded_retry oracleC7 (ReplanResult.steps [])
      tC7 "s1" "m" "connection lost" (.str "ok") 0 5 (by decide) (by decide)).2.1 rfl).1⟩

/-- Concrete data for the C4 witness: the unknown-capability step inside
`tC4`, with retries remaining. -/
theorem c4_witness :
    (stepIds tC4.steps).Nodup ∧
    ((tC4f.get_step "s1").map (fun x => (x.state, x.retry_count)) = some (.failed, 1) ∧
      (0 + 1 < 3 → ∃ s' ∈ get_runnable_steps tC4f, s'.id = "s1") ∧
      (3 ≤ 0 + 1 → (check_task_completion tC4f 1).1 = true ∧
        (check_task_completion tC4f 1).2.state = .failed)) :=
  ⟨by decide,
    c4_amended_unknown_skill_fails_then_retries_until_exhaustion tC4
      (mkStep "s1" "nonexistent_skill" .pending) 1 (by decide)
      (List.mem_cons_self _ _) rfl
      (fun d hd => absurd hd (List.not_mem_nil d))⟩

/-! Claim C6: the effect of a successful replan. -/

theorem skipIfPending_id (now : Nat) (s : TaskStep) : (skipIfPending now s).id = s.id := by
  unfold skipIfPending
  split <;> rfl

theorem stepIds_map (l : List TaskStep) (g : TaskStep → TaskStep)
    (hg : ∀ s, (g s).id = s.id) : stepIds (l.map g) = stepIds l := by
  induction l with
  | nil => rfl
  | cons a rest ih =>
    simp only [stepIds, List.map_cons] at ih ⊢
    rw [hg, ih]

theorem map_if_pointwise_at (l : List TaskStep) (f : TaskStep → TaskStep) :
    ∀ (i : Nat) (s : TaskStep), (stepIds l).Nodup → l[i]? = some s →
    l.map (fun x => if x.id = s.id then f x else x) = l.take i ++ f s :: l.drop (i + 1) := by
  induction l with
  | nil =>
    intro i s _ hgi
    simp at hgi
  | cons a rest ih =>
    intro i s hN hgi
    have hN' : (stepIds rest).Nodup ∧ ¬ (a.id ∈ stepIds rest) := by
      rw [stepIds, List.map_cons, List.nodup_cons] at hN
      exact ⟨hN.2, hN.1⟩
    cases i with
    | zero =>
      rw [List.getElem?_cons_zero] at hgi
      injection hgi with hgi
      subst hgi
      rw [List.map_cons, if_pos rfl,
        map_if_id_no_match a.id f rest
          (fun x hx hxe => hN'.2 (hxe ▸ List.mem_map_of_mem _ hx))]
      rfl
    | succ i =>
      rw [List.getElem?_cons_succ] at hgi
      have hsmem : s ∈ rest := List.getElem?_mem hgi
      have hane : ¬ (a.id = s.id) := by
        intro he
        refine hN'.2 ?_
        rw [he]
        exact List.mem_map_of_mem _ hsmem
      rw [List.map_cons, if_neg hane, ih i s hN'.1 hgi]
      rfl

theorem update_step_state_map (t : Task) (sid : String) (st : StepState)
    (out : JVal) (err : Option String) (now : Nat)
    (hN : (stepIds t.steps).Nodup) (h : sid ∈ stepIds t.steps) :
    (update_step_state t sid st out err now).steps =
      t.steps.map (fun x => if x.id = sid then applyUpd st out err now x else x) ∧
    (update_step_state t sid st out err now).state = t.state := by
  rw [update_step_state_of_mem t sid st out err now h]
  exact ⟨updFirst_eq_map sid _ t.steps hN, rfl⟩

theorem take_app_cons (A : List TaskStep) (u : TaskStep) (B : List TaskStep) :
    (A ++ u :: B).take (A.length + 1) = A ++ [u] := by
  induction A with
  | nil => rfl
  | cons a A ih =>
    simp only [List.cons_append, List.length_cons, List.take_succ_cons, ih]

theorem drop_app_cons (A : List TaskStep) (u : TaskStep) (B : List TaskStep) :
    (A ++ u :: B).drop (A.length + 1) = B := by
  induction A with
  | nil => rfl
  | cons a A ih =>
    simp only [List.cons_append, List.length_cons, List.drop_succ_cons, ih]

theorem skip_pending_from_spec (now : Nat) :
    ∀ (fuel i : Nat) (t : Task), (stepIds t.steps).Nodup → t.steps.length ≤ i + fuel →
      (skip_pending_from now fuel i t).steps =
        t.steps.take i ++ (t.steps.drop i).map (skipIfPending now) ∧
      (skip_pending_from now fuel i t).state = t.state := by
  intro fuel
  induction fuel with
  | zero =>
    intro i t hN hlen
    rw [skip_pending_from]
    refine ⟨?_, rfl⟩
    rw [List.take_of_length_le (by omega), List.drop_eq_nil_of_le (by omega)]
    simp
  | succ fuel ih =>
    intro i t hN hlen
    rw [skip_pending_from]
    cases hgi : t.steps[i]? with
    | none =>
      have hge : t.steps.length ≤ i := by
        by_contra hcon
        rw [List.getElem?_eq_getElem (by omega)] at hgi
        cases hgi
      refine ⟨?_, rfl⟩
      rw [List.take_of_length_le hge, List.drop_eq_nil_of_le hge]
      simp
    | some s =>
      have hilt : i < t.steps.length := by
        by_contra hcon
        rw [List.getElem?_eq_none (by omega)] at hgi
        cases hgi
      have hsmem : s ∈ t.steps := List.getElem?_mem hgi
      have hdropi : t.steps.drop i = s :: t.steps.drop (i + 1) := by
        rw [List.drop_eq_getElem_cons hilt]
        congr 1
        exact (List.getElem?_eq_some_iff.mp hgi).choose_spec
      dsimp only
      by_cases hp : s.state = .pending
      · rw [if_pos hp]
        have hsid : s.id ∈ stepIds t.steps := List.mem_map_of_mem _ hsmem
        obtain ⟨hm1, hm2⟩ := update_step_state_map t s.id .skipped .null
          (some "Plan changed") now hN hsid
        set u := applyUpd .skipped .null (some "Plan changed") now s with hu
        set t' := update_step_state t s.id .skipped .null (some "Plan changed") now with ht'
        have hsteps' : t'.steps = t.steps.take i ++ u :: t.steps.drop (i + 1) := by
          rw [ht', hm1]
          exact map_if_pointwise_at t.steps _ i s hN hgi
        have hids' : stepIds t'.steps = stepIds t.steps := by
          rw [ht', hm1]
          exact stepIds_map t.steps _ (fun x => by split <;> rfl)
        have hlen' : t'.steps.length = t.steps.length := by
          have := congrArg List.length hids'
          simpa [stepIds] using this
        have htklen : (t.steps.take i).length = i := by
          rw [List.length_take]
          omega
        obtain ⟨ihs, ihstate⟩ := ih (i + 1) t' (by rw [hids']; exact hN) (by omega)
        refine ⟨?_, by rw [ihstate, ht', hm2]⟩
        rw [ihs, hsteps']
        have htk : (t.steps.take i ++ u :: t.steps.drop (i + 1)).take (i + 1) =
            t.steps.take i ++ [u] := by
          have h0 := take_app_cons (t.steps.take i) u (t.steps.drop (i + 1))
          rwa [htklen] at h0
        have hdr : (t.steps.take i ++ u :: t.steps.drop (i + 1)).drop (i + 1) =
            t.steps.drop (i + 1) := by
          have h0 := drop_app_cons (t.steps.take i) u (t.steps.drop (i + 1))
          rwa [htklen] at h0
        rw [htk, hdr, hdropi, List.map_cons]
        have hskipu : skipIfPending now s = u := by
          rw [skipIfPending, if_pos hp, hu]
        rw [hskipu]
        simp
      · rw [if_neg hp]
        obtain ⟨ihs, ihstate⟩ := ih (i + 1) t hN (by omega)
        refine ⟨?_, ihstate⟩
        rw [ihs, hdropi, List.map_cons]
        have hskips : skipIfPending now s = s := by
          rw [skipIfPending, if_neg hp]
        rw [hskips, List.take_succ, hgi]
        simp

theorem foldl_add_step (now : Nat) (l : List TaskStep) : ∀ (t : Task),
    (l.foldl (fun acc ns => add_step acc ns now) t).steps = t.steps ++ l ∧
    (l.foldl (fun acc ns => add_step acc ns now) t).state = t.state := by
  induction l with
  | nil =>
    intro t
    simp
  | cons x xs ih =>
    intro t
    rw [List.foldl_cons]
    obtain ⟨h1, h2⟩ := ih (add_step t x now)
    refine ⟨?_, by rw [h2]; rfl⟩
    rw [h1]
    show (t.steps ++ [x]) ++ xs = t.steps ++ x :: xs
    simp

theorem map_if_congr_self (l : List TaskStep) (g : TaskStep → TaskStep) (sid : String)
    (h : ∀ x ∈ l, x.id = sid → g x = x) :
    l.map (fun x => if x.id = sid then g x else x) = l := by
  induction l with
  | nil => rfl
  | cons a rest ih =>
    rw [List.map_cons, ih (fun x hx => h x (List.mem_cons_of_mem a hx))]
    by_cases ha : a.id = sid
    · rw [if_pos ha, h a (List.mem_cons_self a rest) ha]
    · rw [if_neg ha]

theorem mark_failed_once_map (t : Task) (sid error : String) (now : Nat)
    (hN : (stepIds t.steps).Nodup) (h : sid ∈ stepIds t.steps) :
    (mark_failed_once t sid error now).steps =
      t.steps.map (fun x => if x.id = sid then
        (if x.state = .failed then x else applyUpd .failed .null (some error) now x) else x) ∧
    (mark_failed_once t sid error now).state = t.state := by
  obtain ⟨s0, hs0⟩ := find?_isSome_of_id_mem sid t.steps h
  have hs0mem : s0 ∈ t.steps := List.mem_of_find?_eq_some hs0
  have hs0id : s0.id = sid := by simpa using List.find?_some hs0
  have hkey : ∀ x ∈ t.steps, x.id = sid → x = s0 := fun x hx hxid =>
    List.inj_on_of_nodup_map (by simpa [stepIds] using hN) hx hs0mem (by rw [hxid, hs0id])
  unfold mark_failed_once
  rw [show t.get_step sid = some s0 from hs0]
  dsimp only
  by_cases hf : s0.state = .failed
  · rw [if_pos hf]
    refine ⟨?_, rfl⟩
    exact (map_if_congr_self t.steps _ sid (fun x hx hxid => by
      rw [hkey x hx hxid, if_pos hf])).symm
  · rw [if_neg hf]
    obtain ⟨hm1, hm2⟩ := update_step_state_map t sid .failed .null (some error) now hN h
    refine ⟨?_, hm2⟩
    rw [hm1]
    apply List.map_congr_left
    intro x hx
    by_cases hxid : x.id = sid
    · rw [if_pos hxid, if_pos hxid, if_neg (by rw [hkey x hx hxid]; exact hf)]
    · rw [if_neg hxid, if_neg hxid]

theorem self_correct_replan_closed_form (t : Task) (sid error : String) (now : Nat)
    (r : TaskStep) (rs : List TaskStep)
    (hN : (stepIds t.steps).Nodup) (hsid : sid ∈ stepIds t.steps) :
    (self_correct (ReplanResult.steps (r :: rs)) t sid error now).steps =
      t.steps.map (fun x =>
        if x.id = sid then
          applyUpd .skipped .null (some ("Replaced by recovery: " ++ error)) now
            (if x.state = .failed then x else applyUpd .failed .null (some error) now x)
        else skipIfPending now x) ++ (r :: rs) ∧
    (self_correct (ReplanResult.steps (r :: rs)) t sid error now).state = .running := by
  have hF1id : ∀ x : TaskStep, ((fun x : TaskStep => if x.id = sid then
      (if x.state = .failed then x else applyUpd .failed .null (some error) now x) else x) x).id
      = x.id := by
    intro x
    dsimp only
    by_cases h1 : x.id = sid
    · rw [if_pos h1]
      by_cases h2 : x.state = .failed
      · rw [if_pos h2]
      · rw [if_neg h2]
        rfl
    · rw [if_neg h1]
  have hm1 := mark_failed_once_map t sid error now hN hsid
  have hids1 : stepIds (mark_failed_once t sid error now).steps = stepIds t.steps := by
    rw [hm1.1]
    exact stepIds_map t.steps _ hF1id
  have hN1 : (stepIds (mark_failed_once t sid error now).steps).Nodup := by
    rw [hids1]
    exact hN
  have hsid1 : sid ∈ stepIds (mark_failed_once t sid error now).steps := by
    rw [hids1]
    exact hsid
  have hm2 := update_step_state_map (mark_failed_once t sid error now) sid .skipped .null
    (some ("Replaced by recovery: " ++ error)) now hN1 hsid1
  have hF2id : ∀ x : TaskStep, ((fun x : TaskStep => if x.id = sid then
      applyUpd .skipped .null (some ("Replaced by recovery: " ++ error)) now x else x) x).id
      = x.id := by
    intro x
    dsimp only
    by_cases h1 : x.id = sid
    · rw [if_pos h1]
      rfl
    · rw [if_neg h1]
  have hids2 : stepIds (update_step_state (mark_failed_once t sid error now) sid .skipped .null
      (some ("Replaced by recovery: " ++ error)) now).steps = stepIds t.steps := by
    rw [hm2.1, stepIds_map _ _ hF2id, hids1]
  have hN2 : (stepIds (update_step_state (mark_failed_once t sid error now) sid .skipped .null
      (some ("Replaced by recovery: " ++ error)) now).steps).Nodup := by
    rw [hids2]
    exact hN
  obtain ⟨h3s, h3st⟩ := skip_pending_from_spec now
    (update_step_state (mark_failed_once t sid error now) sid .skipped .null
      (some ("Replaced by recovery: " ++ error)) now).steps.length 0
    (update_step_state (mark_failed_once t sid error now) sid .skipped .null
      (some ("Replaced by recovery: " ++ error)) now) hN2 (by omega)
  have hskipmap : (skip_pending (update_step_state (mark_failed_once t sid error now) sid .skipped
      .null (some ("Replaced by recovery: " ++ error)) now) now).steps =
      (update_step_state (mark_failed_once t sid error now) sid .skipped .null
        (some ("Replaced by recovery: " ++ error)) now).steps.map (skipIfPending now) := by
    rw [skip_pending, h3s]
    simp
  have hfold := foldl_add_step now (r :: rs)
    (skip_pending (update_step_state (mark_failed_once t sid error now) sid .skipped .null
      (some ("Replaced by recovery: " ++ error)) now) now)
  constructor
  · show ((r :: rs).foldl (fun acc ns => add_step acc ns now)
        (skip_pending (update_step_state (mark_failed_once t sid error now) sid .skipped .null
          (some ("Replaced by recovery: " ++ error)) now) now)).steps = _
    rw [hfold.1, hskipmap, hm2.1, hm1.1, List.map_map, List.map_map]
    congr 1
    apply List.map_congr_left
    intro x _
    show skipIfPending now ((fun x : TaskStep => if x.id = sid then
        applyUpd .skipped .null (some ("Replaced by recovery: " ++ error)) now x else x)
      ((fun x : TaskStep => if x.id = sid then
        (if x.state = .failed then x else applyUpd .failed .null (some error) now x) else x) x)) = _
    dsimp only
    by_cases h1 : x.id = sid
    · by_cases h2 : x.state = .failed
      · simp [h1, h2, skipIfPending, applyUpd]
      · simp [h1, h2, skipIfPending, applyUpd]
    · by_cases hp : x.state = .pending
      · simp [h1, hp, skipIfPending, applyUpd]
      · simp [h1, hp, skipIfPending, applyUpd]
  · rfl

/-- C6: after a successful replan (a non-empty recovery list), the failing
step is marked skipped, every step that was still pending is marked skipped,
the recovery steps are appended unchanged at the end of the step list, the
original steps keep their identifiers and relative order, no original step
remains pending, and the task state is set back to running. -/
theorem c6_successful_replan_rewrites_plan (t : Task) (sid error : String) (now : Nat)
    (r : TaskStep) (rs : List TaskStep)
    (hN : (stepIds t.steps).Nodup) (hsid : sid ∈ stepIds t.steps) :
    let res := self_correct (ReplanResult.steps (r :: rs)) t sid error now
    res.state = .running ∧
    res.steps.length = t.steps.length + (r :: rs).length ∧
    res.steps.drop t.steps.length = r :: rs ∧
    (∀ (i : Nat), ∀ os ∈ t.steps[i]?, ∀ ns ∈ res.steps[i]?,
      ns.id = os.id ∧
      (os.id = sid → ns.state = .skipped) ∧
      (os.state = .pending → ns.state = .skipped) ∧
      (¬ os.id = sid → ¬ os.state = .pending → ns = os) ∧
      ¬ ns.state = .pending) := by
  intro res
  obtain ⟨hsteps, hstate⟩ := self_correct_replan_closed_form t sid error now r rs hN hsid
  refine ⟨hstate, ?_, ?_, ?_⟩
  · rw [hsteps]
    simp
  · rw [hsteps]
    have hlenmap : (t.steps.map (fun x =>
        if x.id = sid then
          applyUpd .skipped .null (some ("Replaced by recovery: " ++ error)) now
            (if x.state = .failed then x else applyUpd .failed .null (some error) now x)
        else skipIfPending now x)).length = t.steps.length := by
      simp
    rw [← hlenmap, List.drop_left]
  · intro i os hos ns hns
    rw [Option.mem_def] at hos hns
    have hlt : i < t.steps.length := by
      by_contra hcon
      rw [List.getElem?_eq_none (by omega)] at hos
      cases hos
    have hres_i : res.steps[i]? = some ((fun x =>
        if x.id = sid then
          applyUpd .skipped .null (some ("Replaced by recovery: " ++ error)) now
            (if x.state = .failed then x else applyUpd .failed .null (some error) now x)
        else skipIfPending now x) os) := by
      rw [hsteps, List.getElem?_append_left (by simpa using hlt), List.getElem?_map, hos,
        Option.map_some']
    rw [hres_i] at hns
    injection hns with hns
    subst hns
    dsimp only
    by_cases h1 : os.id = sid
    · rw [if_pos h1]
      by_cases h2 : os.state = .failed
      · rw [if_pos h2]
        exact ⟨rfl, fun _ => rfl, fun _ => rfl, fun hcon _ => absurd h1 hcon,
          by intro hcon; cases hcon⟩
      · rw [if_neg h2]
        exact ⟨rfl, fun _ => rfl, fun _ => rfl, fun hcon _ => absurd h1 hcon,
          by intro hcon; cases hcon⟩
    · rw [if_neg h1]
      by_cases hp : os.state = .pending
      · rw [skipIfPending, if_pos hp]
        exact ⟨rfl, fun hcon => absurd hcon h1, fun _ => rfl,
          fun _ hcon => absurd hp hcon, by intro hcon; cases hcon⟩
      · rw [skipIfPending, if_neg hp]
        exact ⟨rfl, fun hcon => absurd hcon h1, fun hcon => absurd hcon hp,
          fun _ _ => rfl, hp⟩

theorem c6_witness :
    (stepIds tC6.steps).Nodup ∧
    ((self_correct (ReplanResult.steps [mkStep "r1" "chat" .pending]) tC6 "b" "boom" 9).state
        = .running ∧
      (self_correct (ReplanResult.steps [mkStep "r1" "chat" .pending]) tC6 "b" "boom"
        9).steps.drop tC6.steps.length = [mkStep "r1" "chat" .pending]) :=
  ⟨by decide,
    ⟨(c6_successful_replan_rewrites_plan tC6 "b" "boom" 9 (mkStep "r1" "chat" .pending) []
        (by decide) (by decide)).1,
      (c6_successful_replan_rewrites_plan tC6 "b" "boom" 9 (mkStep "r1" "chat" .pending) []
        (by decide) (by decide)).2.2.1⟩⟩

end Orbit
